import Mathlib

/-!
Verification model of `src/receive/SSRCMap.ts` from the `voice` repository.

The TypeScript class `SSRCMap` keeps a `Map<number, VoiceUserData>` from audio
SSRCs to user data, and emits `new` / `update` / `delete` events.  We embed the
runtime behaviour shallowly: the JavaScript `Map` (which iterates in insertion
order, replaces values in place on `set` of an existing key, and appends new
keys at the end) becomes an association list `List (Nat × VoiceUserData)`;
event emission becomes an explicit list of emitted events returned by each
operation; the one-shot promise machinery of `resolve` becomes an explicit
state (`ResolveState`) with transition functions for the two resumption paths.
-/

set_option autoImplicit false

/--
Runtime model of the `VoiceUserData` record.  `videoSSRC` is declared optional
in the interface (`videoSSRC?: number`), so it is an `Option`.  `userId` is
also modelled as an `Option String` because the TypeScript type annotation is
erased at runtime and the shallow-spread merge in `update` operates on the
fields actually present in the record; the spec's merge property explicitly
exercises an `update` whose record carries no `participantId`, and a field
absent from the runtime record is `none` here.
-/
structure VoiceUserData where
  audioSSRC : Nat
  videoSSRC : Option Nat
  userId : Option String
  deriving DecidableEq, Repr

/-- One field of the JavaScript shallow-spread merge `{...existing, ...data}`:
a field present in `data` overrides, a field absent in `data` keeps the
existing value. -/
def mergedField {α : Type} (newField oldField : Option α) : Option α :=
  match newField with
  | some v => some v
  | none => oldField

/-- The JavaScript object spread `{...this.map.get(data.audioSSRC), ...data}`
from `SSRCMap.update`, field by field.  `audioSSRC` is always present in
`data`, so it always comes from `data`. -/
def spreadMerge (existing : Option VoiceUserData) (data : VoiceUserData) : VoiceUserData :=
  { audioSSRC := data.audioSSRC
    videoSSRC := mergedField data.videoSSRC
      (match existing with | some e => e.videoSSRC | none => none)
    userId := mergedField data.userId
      (match existing with | some e => e.userId | none => none) }

/-- The private `Map<number, VoiceUserData>` of an `SSRCMap`, as an
association list in insertion order (JavaScript `Map` iteration order). -/
abbrev SSRCMap := List (Nat × VoiceUserData)

/-- `Map.prototype.get`: the value of the first (in a well-formed map, only)
entry with the given key. -/
def mapGet : SSRCMap → Nat → Option VoiceUserData
  | [], _ => none
  | (k, v) :: rest, t => if k = t then some v else mapGet rest t

/-- `Map.prototype.set`: replace the value in place if the key is present
(keeping its position in iteration order), otherwise append the new entry. -/
def mapSet : SSRCMap → Nat → VoiceUserData → SSRCMap
  | [], k, v => [(k, v)]
  | (k', v') :: rest, k, v =>
    if k' = k then (k, v) :: rest else (k', v') :: mapSet rest k v

/-- `Map.prototype.delete`: remove the entry with the given key, if any. -/
def mapDeleteKey : SSRCMap → Nat → SSRCMap
  | [], _ => []
  | (k', v') :: rest, k => if k' = k then rest else (k', v') :: mapDeleteKey rest k

/-- The events of `SSRCMapEvents`, with their payloads. -/
inductive SSRCMapEvent where
  | newData : VoiceUserData → SSRCMapEvent
  | updateData : Option VoiceUserData → VoiceUserData → SSRCMapEvent
  | deleteData : VoiceUserData → SSRCMapEvent
  deriving DecidableEq, Repr

/--
`SSRCMap.update(data)`:

```
const existing = this.map.get(data.audioSSRC);
const newValue = { ...this.map.get(data.audioSSRC), ...data };
this.map.set(data.audioSSRC, newValue);
if (!existing) this.emit('new', newValue);
this.emit('update', existing, newValue);
```

Returns the new map together with the list of emitted events, in emission
order. -/
def SSRCMap.update (m : SSRCMap) (data : VoiceUserData) : SSRCMap × List SSRCMapEvent :=
  let existing := mapGet m data.audioSSRC
  let newValue := spreadMerge (mapGet m data.audioSSRC) data
  (mapSet m data.audioSSRC newValue,
    (match existing with
      | none => [SSRCMapEvent.newData newValue]
      | some _ => []) ++ [SSRCMapEvent.updateData existing newValue])

/-- The string branch of `SSRCMap.get`: iterate `this.map.values()` in order
and return the first element whose `userId` equals the target. -/
def findByUser : SSRCMap → String → Option VoiceUserData
  | [], _ => none
  | (_, v) :: rest, s => if v.userId = some s then some v else findByUser rest s

/-- `SSRCMap.get(target)`: numeric targets do an exact key lookup, string
targets scan the values for a matching `userId`; falling through returns
`undefined` (`none`). -/
def SSRCMap.get (m : SSRCMap) (target : Nat ⊕ String) : Option VoiceUserData :=
  match target with
  | Sum.inl n => mapGet m n
  | Sum.inr s => findByUser m s

/-- The string branch of `SSRCMap.delete`: iterate `this.map.entries()` in
order; on the first entry whose `userId` matches, remove it, emit a delete
event and return the data; otherwise return `undefined` with no event. -/
def deleteByUser : SSRCMap → String → SSRCMap × List SSRCMapEvent × Option VoiceUserData
  | [], _ => ([], [], none)
  | (k, v) :: rest, s =>
    if v.userId = some s then (rest, [SSRCMapEvent.deleteData v], some v)
    else
      let r := deleteByUser rest s
      ((k, v) :: r.1, r.2.1, r.2.2)

/-- `SSRCMap.delete(target)`: numeric targets look up the key and, if present,
remove it, emit a delete event and return the removed data; string targets
scan the entries as in `deleteByUser`.  Returns the new map, the emitted
events and the return value. -/
def SSRCMap.delete (m : SSRCMap) (target : Nat ⊕ String) :
    SSRCMap × List SSRCMapEvent × Option VoiceUserData :=
  match target with
  | Sum.inl n =>
    match mapGet m n with
    | some existing => (mapDeleteKey m n, [SSRCMapEvent.deleteData existing], some existing)
    | none => (m, [], none)
  | Sum.inr s => deleteByUser m s

instance decEqExcept : DecidableEq (Except String VoiceUserData) := fun a b =>
  match a, b with
  | Except.error x, Except.error y =>
    if h : x = y then Decidable.isTrue (by rw [h])
    else Decidable.isFalse (fun hc => by cases hc; exact h rfl)
  | Except.error _, Except.ok _ => Decidable.isFalse (fun hc => by cases hc)
  | Except.ok _, Except.error _ => Decidable.isFalse (fun hc => by cases hc)
  | Except.ok x, Except.ok y =>
    if h : x = y then Decidable.isTrue (by rw [h])
    else Decidable.isFalse (fun hc => by cases hc; exact h rfl)

/-- State of one `resolve` call's promise machinery: whether the `onNew`
listener is currently registered (`this.on('new', onNew)` /
`this.off('new', onNew)`), whether the `setTimeout` timer is currently
scheduled (not yet fired and not cleared by `clearTimeout`), and the
settled outcome of the promise, if any. -/
structure ResolveState where
  subscribed : Bool
  timerActive : Bool
  result : Option (Except String VoiceUserData)
  deriving DecidableEq, Repr

/-- The rejection message built in the `setTimeout` callback of
`SSRCMap.resolve`. -/
def timeoutMessage (target : String) (maxTime : Nat) : String :=
  "Did not find SSRC for user " ++ target ++ " within " ++ toString maxTime ++ "ms"

/-- The synchronous part of `SSRCMap.resolve(target, maxTime)`: if
`this.get(target)` finds data, the promise resolves at once and neither the
listener nor the timer is ever installed; otherwise the call is pending with
the `onNew` listener registered and the timer scheduled exactly when a
`maxTime` was supplied. -/
def resolveStart (m : SSRCMap) (target : String) (maxTime : Option Nat) : ResolveState :=
  match SSRCMap.get m (Sum.inr target) with
  | some existing =>
    { subscribed := false, timerActive := false, result := some (Except.ok existing) }
  | none =>
    { subscribed := true, timerActive := maxTime.isSome, result := none }

/-- The `onNew` listener of `SSRCMap.resolve`: while registered, a `new` event
whose `userId` equals the target unregisters the listener, clears the timer
and resolves the promise with the event's data. -/
def onNewFired (rs : ResolveState) (target : String) (userData : VoiceUserData) : ResolveState :=
  if rs.subscribed then
    if userData.userId = some target then
      { subscribed := false, timerActive := false, result := some (Except.ok userData) }
    else rs
  else rs

/-- The `setTimeout` callback of `SSRCMap.resolve`: if the timer is still
scheduled when the deadline elapses, it unregisters the `onNew` listener and
rejects the promise with the timeout error. -/
def timeoutFired (rs : ResolveState) (target : String) (maxTime : Nat) : ResolveState :=
  if rs.timerActive then
    { subscribed := false, timerActive := false,
      result := some (Except.error (timeoutMessage target maxTime)) }
  else rs

/-- Delivery of one emitted `SSRCMap` event to a pending `resolve` call: the
call subscribed only to the `new` channel, so `update` and `delete` events are
never delivered to it. -/
def dispatchToResolve (rs : ResolveState) (target : String) (e : SSRCMapEvent) : ResolveState :=
  match e with
  | SSRCMapEvent.newData d => onNewFired rs target d
  | SSRCMapEvent.updateData _ _ => rs
  | SSRCMapEvent.deleteData _ => rs

/-- Delivery of a list of emitted events, in order. -/
def dispatchAll (rs : ResolveState) (target : String) (es : List SSRCMapEvent) : ResolveState :=
  es.foldl (fun r e => dispatchToResolve r target e) rs

/-- The mutating operations of an `SSRCMap`, for reasoning about reachable
registry states. -/
inductive SSRCMapOp where
  | updateOp : VoiceUserData → SSRCMapOp
  | deleteOp : (Nat ⊕ String) → SSRCMapOp

/-- Run one operation, keeping only the resulting map. -/
def runOp (m : SSRCMap) : SSRCMapOp → SSRCMap
  | SSRCMapOp.updateOp d => (SSRCMap.update m d).1
  | SSRCMapOp.deleteOp t => (SSRCMap.delete m t).1

/-- Run a sequence of operations from a starting map. -/
def runOps (m : SSRCMap) (ops : List SSRCMapOp) : SSRCMap :=
  ops.foldl runOp m

/-- The documented constraint on `videoSSRC`: "Cannot be 0." -/
def videoOk (d : VoiceUserData) : Prop := d.videoSSRC ≠ some 0

/-- Every value stored in the map satisfies the `videoSSRC` constraint. -/
def stateVideoOk (m : SSRCMap) : Prop := ∀ p ∈ m, videoOk p.2

/-- Number of `new` events in a list. -/
def countNew (es : List SSRCMapEvent) : Nat :=
  es.countP (fun e => match e with | SSRCMapEvent.newData _ => true | _ => false)

/-- Number of `update` events in a list. -/
def countUpdate (es : List SSRCMapEvent) : Nat :=
  es.countP (fun e => match e with | SSRCMapEvent.updateData _ _ => true | _ => false)

/-! ### Helper lemmas about the map model -/

theorem mapGet_mapSet_self (m : SSRCMap) (k : Nat) (v : VoiceUserData) :
    mapGet (mapSet m k v) k = some v := by
  induction m with
  | nil => simp [mapSet, mapGet]
  | cons p rest ih =>
    obtain ⟨k', v'⟩ := p
    by_cases h : k' = k
    · simp [mapSet, mapGet, h]
    · simp [mapSet, mapGet, h, ih]

theorem mapGet_mapSet_ne (m : SSRCMap) (k k' : Nat) (v : VoiceUserData) (h : k' ≠ k) :
    mapGet (mapSet m k v) k' = mapGet m k' := by
  induction m with
  | nil =>
    simp only [mapSet, mapGet]
    rw [if_neg (fun hc => h hc.symm)]
  | cons p rest ih =>
    obtain ⟨k₀, v₀⟩ := p
    by_cases hk : k₀ = k
    · subst hk
      simp only [mapSet, if_pos rfl, mapGet]
      rw [if_neg (fun hc => h hc.symm), if_neg (fun hc => h hc.symm)]
    · simp only [mapSet, if_neg hk, mapGet]
      by_cases hk' : k₀ = k'
      · simp [hk']
      · simp [hk', ih]

theorem length_le_length_mapSet (m : SSRCMap) (k : Nat) (v : VoiceUserData) :
    m.length ≤ (mapSet m k v).length := by
  induction m with
  | nil => simp [mapSet]
  | cons p rest ih =>
    obtain ⟨k₀, v₀⟩ := p
    by_cases hk : k₀ = k
    · simp [mapSet, hk]
    · simpa [mapSet, hk] using ih

theorem mem_keys_mapSet (m : SSRCMap) (k k' : Nat) (v : VoiceUserData)
    (h : k' ∈ m.map Prod.fst) : k' ∈ (mapSet m k v).map Prod.fst := by
  induction m with
  | nil => simp at h
  | cons p rest ih =>
    obtain ⟨k₀, v₀⟩ := p
    simp only [List.map_cons, List.mem_cons] at h
    by_cases hk : k₀ = k
    · subst hk
      rcases h with h | h <;> simp [mapSet, h]
    · rcases h with h | h
      · simp [mapSet, hk, h]
      · simp [mapSet, hk, ih h]

/-! ### Claim theorems -/

/-- Claim C1 (merge semantics of `update`): for any binding `B` already stored
under key `K`, an `update` with `audioSSRC K`, a `videoSSRC V` and no `userId`
stores `B` with only `videoSSRC` replaced by `V`; in general a field present
in the new data overrides and a field absent in the new data is preserved
from `B`, and the merged result is stored under `K`. -/
theorem update_merge_semantics (m : SSRCMap) (K V : Nat) (B : VoiceUserData)
    (hB : mapGet m K = some B) (hK : B.audioSSRC = K) :
    mapGet (SSRCMap.update m { audioSSRC := K, videoSSRC := some V, userId := none }).1 K =
      some { B with videoSSRC := some V } ∧
    ∀ (vs : Option Nat) (us : Option String),
      mapGet (SSRCMap.update m { audioSSRC := K, videoSSRC := vs, userId := us }).1 K =
        some { audioSSRC := K, videoSSRC := mergedField vs B.videoSSRC,
               userId := mergedField us B.userId } := by
  constructor
  · simp only [SSRCMap.update, hB, mapGet_mapSet_self]
    obtain ⟨a, vv, u⟩ := B
    simp only [VoiceUserData.mk.injEq] at hK ⊢
    simp [spreadMerge, mergedField, hK]
  · intro vs us
    simp only [SSRCMap.update, hB, mapGet_mapSet_self]
    simp [spreadMerge]

theorem update_merge_semantics_witness :
    mapGet
      (SSRCMap.update [(5, { audioSSRC := 5, videoSSRC := some 7, userId := some "u" })]
        { audioSSRC := 5, videoSSRC := some 9, userId := none }).1 5 =
      some { audioSSRC := 5, videoSSRC := some 9, userId := some "u" } :=
  (update_merge_semantics [(5, { audioSSRC := 5, videoSSRC := some 7, userId := some "u" })]
    5 9 { audioSSRC := 5, videoSSRC := some 7, userId := some "u" } rfl rfl).1

/-- Claim C2 (creation-once and notification order): the first `update` for a
key emits exactly a creation event followed by an update event; any `update`
on a map that already stores a binding `b` for the key emits exactly one
update event carrying `some b` and the merge, and no creation event; hence
two updates with the same `audioSSRC` emit one creation and two update
events in total. -/
theorem update_creation_once (m : SSRCMap) (K : Nat) (d1 d2 : VoiceUserData)
    (h1 : d1.audioSSRC = K) (h2 : d2.audioSSRC = K) (h0 : mapGet m K = none) :
    (SSRCMap.update m d1).2 =
      [SSRCMapEvent.newData (spreadMerge none d1),
        SSRCMapEvent.updateData none (spreadMerge none d1)] ∧
    (∀ (m' : SSRCMap) (b d : VoiceUserData), d.audioSSRC = K → mapGet m' K = some b →
      (SSRCMap.update m' d).2 =
        [SSRCMapEvent.updateData (some b) (spreadMerge (some b) d)]) ∧
    (SSRCMap.update (SSRCMap.update m d1).1 d2).2 =
      [SSRCMapEvent.updateData (some (spreadMerge none d1))
        (spreadMerge (some (spreadMerge none d1)) d2)] ∧
    countNew ((SSRCMap.update m d1).2 ++ (SSRCMap.update (SSRCMap.update m d1).1 d2).2) = 1 ∧
    countUpdate ((SSRCMap.update m d1).2 ++ (SSRCMap.update (SSRCMap.update m d1).1 d2).2) = 2 := by
  have hfirst : (SSRCMap.update m d1).2 =
      [SSRCMapEvent.newData (spreadMerge none d1),
        SSRCMapEvent.updateData none (spreadMerge none d1)] := by
    simp [SSRCMap.update, h1, h0]
  have hsub : ∀ (m' : SSRCMap) (b d : VoiceUserData), d.audioSSRC = K → mapGet m' K = some b →
      (SSRCMap.update m' d).2 =
        [SSRCMapEvent.updateData (some b) (spreadMerge (some b) d)] := by
    intro m' b d hd hb
    simp [SSRCMap.update, hd, hb]
  have hstep1 : mapGet (SSRCMap.update m d1).1 K = some (spreadMerge none d1) := by
    simp [SSRCMap.update, h1, h0, mapGet_mapSet_self]
  have hsecond := hsub (SSRCMap.update m d1).1 (spreadMerge none d1) d2 h2 hstep1
  refine ⟨hfirst, hsub, hsecond, ?_, ?_⟩
  · rw [hfirst, hsecond]; rfl
  · rw [hfirst, hsecond]; rfl

theorem update_creation_once_witness :
    (SSRCMap.update [] { audioSSRC := 3, videoSSRC := none, userId := some "p" }).2 =
      [SSRCMapEvent.newData { audioSSRC := 3, videoSSRC := none, userId := some "p" },
        SSRCMapEvent.updateData none
          { audioSSRC := 3, videoSSRC := none, userId := some "p" }] :=
  (update_creation_once [] 3 { audioSSRC := 3, videoSSRC := none, userId := some "p" }
    { audioSSRC := 3, videoSSRC := some 4, userId := some "p" } rfl rfl rfl).1

/-- Claim C10 (frame property of `update`): an `update` call leaves the stored
binding of every other key unchanged, never shrinks the map, and keeps every
previously present key present. -/
theorem update_frame (m : SSRCMap) (d : VoiceUserData) :
    (∀ k, k ≠ d.audioSSRC → mapGet (SSRCMap.update m d).1 k = mapGet m k) ∧
    m.length ≤ (SSRCMap.update m d).1.length ∧
    ∀ k, k ∈ m.map Prod.fst → k ∈ ((SSRCMap.update m d).1.map Prod.fst) := by
  refine ⟨?_, ?_, ?_⟩
  · intro k hk
    simp only [SSRCMap.update]
    exact mapGet_mapSet_ne m d.audioSSRC k _ hk
  · simp only [SSRCMap.update]
    exact length_le_length_mapSet m d.audioSSRC _
  · intro k hk
    simp only [SSRCMap.update]
    exact mem_keys_mapSet m d.audioSSRC k _ hk

theorem update_frame_witness :
    mapGet
      (SSRCMap.update [(1, { audioSSRC := 1, videoSSRC := none, userId := some "a" })]
        { audioSSRC := 2, videoSSRC := none, userId := some "b" }).1 1 =
      mapGet [(1, { audioSSRC := 1, videoSSRC := none, userId := some "a" })] 1 :=
  (update_frame [(1, { audioSSRC := 1, videoSSRC := none, userId := some "a" })]
    { audioSSRC := 2, videoSSRC := none, userId := some "b" }).1 1 (by decide)

/-- Claim C3 counterexample: after inserting `{audioSSRC 1, userId "P"}` and
then `{audioSSRC 2, userId "P"}`, the second binding was inserted via
`update`, yet `get 2` returns the second binding while `get "P"` returns the
first one (first match in insertion order), so the two lookups differ. -/
theorem get_dual_key_counterexample :
    SSRCMap.get
        (SSRCMap.update
          (SSRCMap.update [] { audioSSRC := 1, videoSSRC := none, userId := some "P" }).1
          { audioSSRC := 2, videoSSRC := none, userId := some "P" }).1
        (Sum.inl 2) ≠
      SSRCMap.get
        (SSRCMap.update
          (SSRCMap.update [] { audioSSRC := 1, videoSSRC := none, userId := some "P" }).1
          { audioSSRC := 2, videoSSRC := none, userId := some "P" }).1
        (Sum.inr "P") := by
  decide

theorem findByUser_unique (m : SSRCMap) (K : Nat) (u : String) (b : VoiceUserData)
    (hb : mapGet m K = some b) (hu : b.userId = some u)
    (huniq : ∀ p ∈ m, p.2.userId = some u → p = (K, b)) :
    findByUser m u = some b := by
  induction m with
  | nil => simp [mapGet] at hb
  | cons p rest ih =>
    obtain ⟨k₀, v₀⟩ := p
    by_cases hmatch : v₀.userId = some u
    · have hhead := huniq (k₀, v₀) (List.mem_cons_self _ _) hmatch
      injection hhead with hk hv
      subst hv
      simp [findByUser, hmatch]
    · have hk : k₀ ≠ K := by
        intro hc
        subst hc
        have hv : v₀ = b := by simpa [mapGet] using hb
        rw [hv] at hmatch
        exact hmatch hu
      have hb' : mapGet rest K = some b := by
        simpa [mapGet, hk] using hb
      have huniq' : ∀ p ∈ rest, p.2.userId = some u → p = (K, b) := by
        intro p hp hpu
        exact huniq p (List.mem_cons_of_mem _ hp) hpu
      simp [findByUser, hmatch, ih hb' huniq']

/-- Claim C3, amended (dual-key equivalence): for a binding `b` stored under
key `K` whose `userId` is `u`, **provided no other stored entry carries the
same `userId`**, looking it up by `K` and looking it up by `u` return
identical results, namely `some b`.  (Unamended, the claim fails when two
bindings share a `userId`: see the counterexample.) -/
theorem get_dual_key_equiv (m : SSRCMap) (K : Nat) (u : String) (b : VoiceUserData)
    (hb : mapGet m K = some b) (hu : b.userId = some u)
    (huniq : ∀ p ∈ m, p.2.userId = some u → p = (K, b)) :
    SSRCMap.get m (Sum.inl K) = SSRCMap.get m (Sum.inr u) ∧
    SSRCMap.get m (Sum.inl K) = some b := by
  have hfind := findByUser_unique m K u b hb hu huniq
  constructor
  · simp [SSRCMap.get, hb, hfind]
  · simp [SSRCMap.get, hb]

theorem get_dual_key_equiv_witness :
    SSRCMap.get [(4, { audioSSRC := 4, videoSSRC := none, userId := some "P" })]
        (Sum.inl 4) =
      SSRCMap.get [(4, { audioSSRC := 4, videoSSRC := none, userId := some "P" })]
        (Sum.inr "P") :=
  (get_dual_key_equiv [(4, { audioSSRC := 4, videoSSRC := none, userId := some "P" })]
    4 "P" { audioSSRC := 4, videoSSRC := none, userId := some "P" }
    rfl rfl (by decide)).1

/-- Claim C4 (resolve timeout and mutual exclusion): with no existing binding
for the target and a deadline, `resolve` is pending with the listener
registered and the timer scheduled.  If a matching creation event fires
first, it unsubscribes, cancels the timer and resolves with that binding, and
a later timer expiry changes nothing.  If the deadline elapses first, it
unsubscribes and rejects with the timeout message naming the participant and
the deadline, and a later matching creation event changes nothing. -/
theorem resolve_timeout_mutual_exclusion (m : SSRCMap) (p : String) (T : Nat)
    (h : SSRCMap.get m (Sum.inr p) = none) :
    resolveStart m p (some T) =
      { subscribed := true, timerActive := true, result := none } ∧
    (∀ d : VoiceUserData, d.userId = some p →
      onNewFired (resolveStart m p (some T)) p d =
        { subscribed := false, timerActive := false, result := some (Except.ok d) } ∧
      timeoutFired (onNewFired (resolveStart m p (some T)) p d) p T =
        onNewFired (resolveStart m p (some T)) p d) ∧
    (timeoutFired (resolveStart m p (some T)) p T =
      { subscribed := false, timerActive := false,
        result := some (Except.error (timeoutMessage p T)) } ∧
     ∀ d : VoiceUserData,
       onNewFired (timeoutFired (resolveStart m p (some T)) p T) p d =
         timeoutFired (resolveStart m p (some T)) p T) := by
  have hstart : resolveStart m p (some T) =
      { subscribed := true, timerActive := true, result := none } := by
    simp [resolveStart, h]
  refine ⟨hstart, ?_, ?_⟩
  · intro d hd
    rw [hstart]
    constructor
    · simp [onNewFired, hd]
    · simp [onNewFired, timeoutFired, hd]
  · rw [hstart]
    constructor
    · simp [timeoutFired]
    · intro d
      simp [timeoutFired, onNewFired]

theorem resolve_timeout_mutual_exclusion_witness :
    timeoutFired (resolveStart [] "P" (some 50)) "P" 50 =
      { subscribed := false, timerActive := false,
        result := some (Except.error (timeoutMessage "P" 50)) } :=
  (resolve_timeout_mutual_exclusion [] "P" 50 rfl).2.2.1

/-- Claim C5 (resolve fast path): if `get` already finds a binding for the
participant when `resolve` is called, the promise resolves immediately with
that binding and neither the creation-event listener nor a timer is ever
installed. -/
theorem resolve_fast_path (m : SSRCMap) (p : String) (b : VoiceUserData) (mt : Option Nat)
    (hb : SSRCMap.get m (Sum.inr p) = some b) :
    resolveStart m p mt =
      { subscribed := false, timerActive := false, result := some (Except.ok b) } := by
  simp [resolveStart, hb]

theorem resolve_fast_path_witness :
    resolveStart [(1, { audioSSRC := 1, videoSSRC := none, userId := some "P" })] "P"
        (some 50) =
      { subscribed := false, timerActive := false,
        result :=
          some (Except.ok { audioSSRC := 1, videoSSRC := none, userId := some "P" }) } :=
  resolve_fast_path [(1, { audioSSRC := 1, videoSSRC := none, userId := some "P" })] "P"
    { audioSSRC := 1, videoSSRC := none, userId := some "P" } (some 50) (by decide)

/-- Claim C8 (resolve observes only creation events): delivering an update or
delete event to a pending `resolve` leaves its state unchanged, as does a
creation event for a different participant; in particular the events emitted
by an `update` call on an already-present key (which emits no creation event)
never complete a pending `resolve`, even when the merged binding's `userId`
matches the awaited participant. -/
theorem resolve_ignores_updates (rs : ResolveState) (target : String) :
    (∀ (old : Option VoiceUserData) (nv : VoiceUserData),
      dispatchToResolve rs target (SSRCMapEvent.updateData old nv) = rs) ∧
    (∀ d : VoiceUserData, dispatchToResolve rs target (SSRCMapEvent.deleteData d) = rs) ∧
    (∀ d : VoiceUserData, d.userId ≠ some target →
      dispatchToResolve rs target (SSRCMapEvent.newData d) = rs) ∧
    (∀ (m : SSRCMap) (d b : VoiceUserData), mapGet m d.audioSSRC = some b →
      dispatchAll rs target (SSRCMap.update m d).2 = rs) := by
  refine ⟨fun _ _ => rfl, fun _ => rfl, ?_, ?_⟩
  · intro d hd
    simp [dispatchToResolve, onNewFired, hd]
  · intro m d b hb
    simp [SSRCMap.update, hb, dispatchAll, dispatchToResolve]

theorem resolve_ignores_updates_witness :
    dispatchAll { subscribed := true, timerActive := false, result := none } "P"
        (SSRCMap.update [(1, { audioSSRC := 1, videoSSRC := none, userId := some "Q" })]
          { audioSSRC := 1, videoSSRC := none, userId := some "P" }).2 =
      { subscribed := true, timerActive := false, result := none } :=
  (resolve_ignores_updates { subscribed := true, timerActive := false, result := none }
    "P").2.2.2 [(1, { audioSSRC := 1, videoSSRC := none, userId := some "Q" })]
    { audioSSRC := 1, videoSSRC := none, userId := some "P" }
    { audioSSRC := 1, videoSSRC := none, userId := some "Q" } rfl

/-! ### Helper lemmas for `delete` and `get` -/

theorem mapGet_eq_none_of_not_mem_keys (m : SSRCMap) (n : Nat)
    (h : n ∉ m.map Prod.fst) : mapGet m n = none := by
  induction m with
  | nil => rfl
  | cons p rest ih =>
    obtain ⟨k, v⟩ := p
    simp only [List.map_cons, List.mem_cons] at h
    push_neg at h
    simp only [mapGet]
    rw [if_neg (fun hc => h.1 hc.symm)]
    exact ih h.2

theorem mapGet_mapDeleteKey_self (m : SSRCMap) (n : Nat)
    (h : (m.map Prod.fst).Nodup) : mapGet (mapDeleteKey m n) n = none := by
  induction m with
  | nil => rfl
  | cons p rest ih =>
    obtain ⟨k, v⟩ := p
    simp only [List.map_cons, List.nodup_cons] at h
    by_cases hk : k = n
    · subst hk
      simp only [mapDeleteKey, if_pos rfl]
      exact mapGet_eq_none_of_not_mem_keys rest k h.1
    · simp only [mapDeleteKey, if_neg hk, mapGet, if_neg hk]
      exact ih h.2

theorem findByUser_eq_none (m : SSRCMap) (u : String)
    (h : ∀ p ∈ m, p.2.userId ≠ some u) : findByUser m u = none := by
  induction m with
  | nil => rfl
  | cons p rest ih =>
    obtain ⟨k, v⟩ := p
    have hv := h (k, v) (List.mem_cons_self _ _)
    simp only [findByUser, if_neg hv]
    exact ih (fun q hq => h q (List.mem_cons_of_mem _ hq))

theorem deleteByUser_not_found (m : SSRCMap) (u : String)
    (h : findByUser m u = none) : deleteByUser m u = (m, [], none) := by
  induction m with
  | nil => rfl
  | cons p rest ih =>
    obtain ⟨k, v⟩ := p
    by_cases hv : v.userId = some u
    · simp [findByUser, hv] at h
    · simp only [findByUser, if_neg hv] at h
      simp [deleteByUser, hv, ih h]

theorem deleteByUser_found (m : SSRCMap) (u : String) (b : VoiceUserData)
    (h : findByUser m u = some b) :
    (deleteByUser m u).2 = ([SSRCMapEvent.deleteData b], some b) ∧
    ∃ l1 k l2, m = l1 ++ (k, b) :: l2 ∧ (deleteByUser m u).1 = l1 ++ l2 ∧
      ∀ p ∈ l1, p.2.userId ≠ some u := by
  induction m with
  | nil => simp [findByUser] at h
  | cons p rest ih =>
    obtain ⟨k, v⟩ := p
    by_cases hv : v.userId = some u
    · simp only [findByUser, if_pos hv, Option.some.injEq] at h
      subst h
      exact ⟨by simp [deleteByUser, hv],
        [], k, rest, by simp, by simp [deleteByUser, hv], by simp⟩
    · simp only [findByUser, if_neg hv] at h
      obtain ⟨hev, l1, k', l2, hm, hres, hl1⟩ := ih h
      refine ⟨by simpa [deleteByUser, hv] using hev,
        (k, v) :: l1, k', l2, by simp [hm], by simp [deleteByUser, hv, hres], ?_⟩
      intro q hq
      rcases List.mem_cons.mp hq with hq | hq
      · subst hq; exact hv
      · exact hl1 q hq

theorem countP_user_deleteByUser (m : SSRCMap) (u : String)
    (h : List.countP (fun p => decide (p.2.userId = some u)) m ≤ 1) :
    findByUser (deleteByUser m u).1 u = none := by
  induction m with
  | nil => rfl
  | cons p rest ih =>
    obtain ⟨k, v⟩ := p
    by_cases hv : v.userId = some u
    · simp only [deleteByUser, if_pos hv]
      have hzero : List.countP (fun p => decide (p.2.userId = some u)) rest = 0 := by
        simp only [List.countP_cons, decide_eq_true_eq, if_pos hv] at h
        omega
      exact findByUser_eq_none rest u
        (fun q hq => by
          have := List.countP_eq_zero.mp hzero q hq
          simpa using this)
    · simp only [deleteByUser, if_neg hv]
      have h' : List.countP (fun p => decide (p.2.userId = some u)) rest ≤ 1 := by
        simp only [List.countP_cons, decide_eq_true_eq, if_neg hv] at h
        omega
      simp only [findByUser, if_neg hv]
      exact ih h'

/-- Claim C6 counterexample: with bindings `{1, "P"}` and `{2, "P"}` both
stored, `delete "P"` succeeds (returns the first binding), yet a subsequent
`get "P"` still finds the second binding instead of returning absent. -/
theorem delete_get_counterexample :
    (SSRCMap.delete
        (SSRCMap.update
          (SSRCMap.update [] { audioSSRC := 1, videoSSRC := none, userId := some "P" }).1
          { audioSSRC := 2, videoSSRC := none, userId := some "P" }).1
        (Sum.inr "P")).2.2 =
      some { audioSSRC := 1, videoSSRC := none, userId := some "P" } ∧
    SSRCMap.get
        (SSRCMap.delete
          (SSRCMap.update
            (SSRCMap.update [] { audioSSRC := 1, videoSSRC := none, userId := some "P" }).1
            { audioSSRC := 2, videoSSRC := none, userId := some "P" }).1
          (Sum.inr "P")).1
        (Sum.inr "P") ≠ none := by
  constructor
  · decide
  · decide

/-- Claim C6, amended (delete removes and reports): on a numeric match,
`delete` removes the key, emits one deletion event with the removed binding
and returns it, and a subsequent numeric `get` returns absent (in maps with
no duplicate keys, as every reachable map is).  On a string match, `delete`
removes exactly the first matching entry, emits one deletion event with it
and returns it; the subsequent `get` for the same participant returns absent
**provided no other stored binding carries that `userId`** (unamended this
part fails, see the counterexample).  On no match, `delete` changes nothing,
emits nothing and returns absent. -/
theorem delete_removes_and_reports (m : SSRCMap) (n : Nat) (u : String) (b : VoiceUserData) :
    (mapGet m n = some b →
      SSRCMap.delete m (Sum.inl n) =
        (mapDeleteKey m n, [SSRCMapEvent.deleteData b], some b)) ∧
    (mapGet m n = some b → (m.map Prod.fst).Nodup →
      SSRCMap.get (SSRCMap.delete m (Sum.inl n)).1 (Sum.inl n) = none) ∧
    (mapGet m n = none → SSRCMap.delete m (Sum.inl n) = (m, [], none)) ∧
    (findByUser m u = some b →
      (SSRCMap.delete m (Sum.inr u)).2 = ([SSRCMapEvent.deleteData b], some b) ∧
      ∃ l1 k l2, m = l1 ++ (k, b) :: l2 ∧
        (SSRCMap.delete m (Sum.inr u)).1 = l1 ++ l2 ∧
        ∀ p ∈ l1, p.2.userId ≠ some u) ∧
    (List.countP (fun p => decide (p.2.userId = some u)) m ≤ 1 →
      SSRCMap.get (SSRCMap.delete m (Sum.inr u)).1 (Sum.inr u) = none) ∧
    (findByUser m u = none → SSRCMap.delete m (Sum.inr u) = (m, [], none)) := by
  refine ⟨?_, ?_, ?_, ?_, ?_, ?_⟩
  · intro hb
    simp [SSRCMap.delete, hb]
  · intro hb hnd
    simp only [SSRCMap.delete, hb, SSRCMap.get]
    exact mapGet_mapDeleteKey_self m n hnd
  · intro hb
    simp [SSRCMap.delete, hb]
  · intro hf
    exact deleteByUser_found m u b hf
  · intro hc
    simp only [SSRCMap.delete, SSRCMap.get]
    exact countP_user_deleteByUser m u hc
  · intro hf
    simp [SSRCMap.delete, deleteByUser_not_found m u hf]

theorem delete_removes_and_reports_witness :
    SSRCMap.delete [(9, { audioSSRC := 9, videoSSRC := none, userId := some "P" })]
        (Sum.inl 9) =
      (mapDeleteKey [(9, { audioSSRC := 9, videoSSRC := none, userId := some "P" })] 9,
        [SSRCMapEvent.deleteData { audioSSRC := 9, videoSSRC := none, userId := some "P" }],
        some { audioSSRC := 9, videoSSRC := none, userId := some "P" }) :=
  (delete_removes_and_reports
    [(9, { audioSSRC := 9, videoSSRC := none, userId := some "P" })] 9 "P"
    { audioSSRC := 9, videoSSRC := none, userId := some "P" }).1 rfl

theorem mem_of_mapGet_eq_some (m : SSRCMap) (n : Nat) (b : VoiceUserData)
    (h : mapGet m n = some b) : (n, b) ∈ m := by
  induction m with
  | nil => simp [mapGet] at h
  | cons p rest ih =>
    obtain ⟨k, v⟩ := p
    by_cases hk : k = n
    · subst hk
      have h' : v = b := by simpa [mapGet] using h
      rw [← h']
      exact List.mem_cons_self _ _
    · simp only [mapGet, if_neg hk] at h
      exact List.mem_cons_of_mem _ (ih h)

theorem mapGet_eq_some_of_mem (m : SSRCMap) (n : Nat) (b : VoiceUserData)
    (hnd : (m.map Prod.fst).Nodup) (h : (n, b) ∈ m) : mapGet m n = some b := by
  induction m with
  | nil => simp at h
  | cons p rest ih =>
    obtain ⟨k, v⟩ := p
    simp only [List.map_cons, List.nodup_cons] at hnd
    rcases List.mem_cons.mp h with h | h
    · injection h with h1 h2
      subst h1
      subst h2
      simp [mapGet]
    · by_cases hk : k = n
      · subst hk
        exact absurd (List.mem_map_of_mem Prod.fst h) hnd.1
      · simp only [mapGet, if_neg hk]
        exact ih hnd.2 h

theorem findByUser_eq_some_iff (m : SSRCMap) (u : String) (b : VoiceUserData) :
    findByUser m u = some b ↔
      ∃ l1 k l2, m = l1 ++ (k, b) :: l2 ∧ b.userId = some u ∧
        ∀ p ∈ l1, p.2.userId ≠ some u := by
  induction m with
  | nil =>
    simp only [findByUser]
    constructor
    · intro h; cases h
    · rintro ⟨l1, k, l2, hm, -, -⟩
      exact absurd hm (by simp)
  | cons q rest ih =>
    obtain ⟨k₀, v₀⟩ := q
    by_cases hv : v₀.userId = some u
    · simp only [findByUser, if_pos hv]
      constructor
      · intro h
        injection h with h
        subst h
        exact ⟨[], k₀, rest, by simp, hv, by simp⟩
      · rintro ⟨l1, k, l2, hm, hbu, hl1⟩
        cases l1 with
        | nil =>
          simp only [List.nil_append, List.cons.injEq] at hm
          have : v₀ = b := (Prod.mk.injEq _ _ _ _ ▸ hm.1).2
          rw [this]
        | cons q' l1' =>
          simp only [List.cons_append, List.cons.injEq] at hm
          have hq' : q' = (k₀, v₀) := hm.1.symm
          have := hl1 q' (List.mem_cons_self _ _)
          rw [hq'] at this
          exact absurd hv this
    · simp only [findByUser, if_neg hv]
      rw [ih]
      constructor
      · rintro ⟨l1, k, l2, hm, hbu, hl1⟩
        refine ⟨(k₀, v₀) :: l1, k, l2, by simp [hm], hbu, ?_⟩
        intro p hp
        rcases List.mem_cons.mp hp with hp | hp
        · subst hp; exact hv
        · exact hl1 p hp
      · rintro ⟨l1, k, l2, hm, hbu, hl1⟩
        cases l1 with
        | nil =>
          simp only [List.nil_append, List.cons.injEq] at hm
          have : v₀ = b := (Prod.mk.injEq _ _ _ _ ▸ hm.1).2
          rw [this] at hv
          exact absurd hbu hv
        | cons q' l1' =>
          simp only [List.cons_append, List.cons.injEq] at hm
          exact ⟨l1', k, l2, hm.2, hbu,
            fun p hp => hl1 p (List.mem_cons_of_mem _ hp)⟩

/-- Claim C7 (get semantics): under the reachable-state invariant that keys
are not duplicated, a numeric `get` returns exactly the binding stored under
that key (`some b` iff the entry `(n, b)` is in the map); a string `get`
returns the first binding in the map's iteration (insertion) order whose
`userId` equals the target; and when nothing matches, `get` returns `none`
(an absent value, not an error) for either kind of target. -/
theorem get_semantics (m : SSRCMap) (n : Nat) (u : String) (b : VoiceUserData) :
    ((m.map Prod.fst).Nodup → (SSRCMap.get m (Sum.inl n) = some b ↔ (n, b) ∈ m)) ∧
    (SSRCMap.get m (Sum.inr u) = some b ↔
      ∃ l1 k l2, m = l1 ++ (k, b) :: l2 ∧ b.userId = some u ∧
        ∀ p ∈ l1, p.2.userId ≠ some u) ∧
    (n ∉ m.map Prod.fst → SSRCMap.get m (Sum.inl n) = none) ∧
    ((∀ p ∈ m, p.2.userId ≠ some u) → SSRCMap.get m (Sum.inr u) = none) := by
  refine ⟨?_, ?_, ?_, ?_⟩
  · intro hnd
    exact ⟨mem_of_mapGet_eq_some m n b, mapGet_eq_some_of_mem m n b hnd⟩
  · exact findByUser_eq_some_iff m u b
  · intro h
    exact mapGet_eq_none_of_not_mem_keys m n h
  · intro h
    exact findByUser_eq_none m u h

theorem get_semantics_witness :
    SSRCMap.get [(1, { audioSSRC := 1, videoSSRC := none, userId := some "Q" })]
        (Sum.inl 3) = none :=
  (get_semantics [(1, { audioSSRC := 1, videoSSRC := none, userId := some "Q" })] 3 "Z"
    { audioSSRC := 1, videoSSRC := none, userId := some "Q" }).2.2.1 (by decide)

/-! ### Helper lemmas for the video-stream invariant -/

theorem mem_mapSet_cases (m : SSRCMap) (k : Nat) (v : VoiceUserData)
    (p : Nat × VoiceUserData) (h : p ∈ mapSet m k v) : p ∈ m ∨ p = (k, v) := by
  induction m with
  | nil => simpa [mapSet] using h
  | cons q rest ih =>
    obtain ⟨k₀, v₀⟩ := q
    by_cases hk : k₀ = k
    · simp only [mapSet, if_pos hk] at h
      rcases List.mem_cons.mp h with h | h
      · exact Or.inr h
      · exact Or.inl (List.mem_cons_of_mem _ h)
    · simp only [mapSet, if_neg hk] at h
      rcases List.mem_cons.mp h with h | h
      · exact Or.inl (h ▸ List.mem_cons_self _ _)
      · rcases ih h with h | h
        · exact Or.inl (List.mem_cons_of_mem _ h)
        · exact Or.inr h

theorem videoOk_spreadMerge (existing : Option VoiceUserData) (d : VoiceUserData)
    (hd : videoOk d) (hex : ∀ e, existing = some e → videoOk e) :
    videoOk (spreadMerge existing d) := by
  cases existing with
  | none =>
    cases hv : d.videoSSRC with
    | none => simp [videoOk, spreadMerge, mergedField, hv]
    | some v =>
      simp only [videoOk, spreadMerge, mergedField, hv]
      rw [← hv]
      exact hd
  | some e =>
    cases hv : d.videoSSRC with
    | none =>
      simp only [videoOk, spreadMerge, mergedField, hv]
      exact hex e rfl
    | some v =>
      simp only [videoOk, spreadMerge, mergedField, hv]
      rw [← hv]
      exact hd

theorem stateVideoOk_update (m : SSRCMap) (d : VoiceUserData)
    (hm : stateVideoOk m) (hd : videoOk d) : stateVideoOk (SSRCMap.update m d).1 := by
  intro p hp
  simp only [SSRCMap.update] at hp
  rcases mem_mapSet_cases m d.audioSSRC _ p hp with h | h
  · exact hm p h
  · rw [h]
    exact videoOk_spreadMerge (mapGet m d.audioSSRC) d hd
      (fun e he => hm (d.audioSSRC, e) (mem_of_mapGet_eq_some m d.audioSSRC e he))

theorem mem_mapDeleteKey (m : SSRCMap) (k : Nat) (p : Nat × VoiceUserData)
    (h : p ∈ mapDeleteKey m k) : p ∈ m := by
  induction m with
  | nil => simp [mapDeleteKey] at h
  | cons q rest ih =>
    obtain ⟨k₀, v₀⟩ := q
    by_cases hk : k₀ = k
    · simp only [mapDeleteKey, if_pos hk] at h
      exact List.mem_cons_of_mem _ h
    · simp only [mapDeleteKey, if_neg hk] at h
      rcases List.mem_cons.mp h with h | h
      · exact h ▸ List.mem_cons_self _ _
      · exact List.mem_cons_of_mem _ (ih h)

theorem mem_deleteByUser (m : SSRCMap) (u : String) (p : Nat × VoiceUserData)
    (h : p ∈ (deleteByUser m u).1) : p ∈ m := by
  induction m with
  | nil => simp [deleteByUser] at h
  | cons q rest ih =>
    obtain ⟨k₀, v₀⟩ := q
    by_cases hv : v₀.userId = some u
    · simp only [deleteByUser, if_pos hv] at h
      exact List.mem_cons_of_mem _ h
    · simp only [deleteByUser, if_neg hv] at h
      rcases List.mem_cons.mp h with h | h
      · exact h ▸ List.mem_cons_self _ _
      · exact List.mem_cons_of_mem _ (ih h)

theorem stateVideoOk_delete (m : SSRCMap) (t : Nat ⊕ String)
    (hm : stateVideoOk m) : stateVideoOk (SSRCMap.delete m t).1 := by
  intro p hp
  cases t with
  | inl n =>
    cases hg : mapGet m n with
    | none =>
      simp only [SSRCMap.delete, hg] at hp
      exact hm p hp
    | some e =>
      simp only [SSRCMap.delete, hg] at hp
      exact hm p (mem_mapDeleteKey m n p hp)
  | inr s =>
    simp only [SSRCMap.delete] at hp
    exact hm p (mem_deleteByUser m s p hp)

theorem stateVideoOk_runOps (m : SSRCMap) (ops : List SSRCMapOp)
    (hm : stateVideoOk m)
    (h : ∀ d, SSRCMapOp.updateOp d ∈ ops → videoOk d) :
    stateVideoOk (runOps m ops) := by
  induction ops generalizing m with
  | nil => exact hm
  | cons op rest ih =>
    show stateVideoOk (runOps (runOp m op) rest)
    have hrest : ∀ d, SSRCMapOp.updateOp d ∈ rest → videoOk d :=
      fun d hd => h d (List.mem_cons_of_mem _ hd)
    cases op with
    | updateOp d =>
      exact ih (runOp m (SSRCMapOp.updateOp d))
        (stateVideoOk_update m d hm (h d (List.mem_cons_self _ _))) hrest
    | deleteOp t =>
      exact ih (runOp m (SSRCMapOp.deleteOp t)) (stateVideoOk_delete m t hm) hrest

/-- Claim C9 (video stream id invariant): starting from the empty registry,
if every `update` input in a sequence of operations has a `videoSSRC` that is
not zero when present (the documented caller contract, not validated by the
code), then every binding stored in the resulting registry state has a
`videoSSRC` that is not zero when present. -/
theorem video_stream_invariant (ops : List SSRCMapOp)
    (h : ∀ d, SSRCMapOp.updateOp d ∈ ops → videoOk d) :
    stateVideoOk (runOps [] ops) :=
  stateVideoOk_runOps [] ops (fun p hp => absurd hp (List.not_mem_nil p)) h

theorem video_stream_invariant_witness :
    stateVideoOk
      (runOps []
        [SSRCMapOp.updateOp { audioSSRC := 1, videoSSRC := some 2, userId := some "P" },
          SSRCMapOp.deleteOp (Sum.inr "Q")]) :=
  video_stream_invariant
    [SSRCMapOp.updateOp { audioSSRC := 1, videoSSRC := some 2, userId := some "P" },
      SSRCMapOp.deleteOp (Sum.inr "Q")]
    (by
      intro d hd
      simp only [List.mem_cons, List.not_mem_nil, or_false] at hd
      rcases hd with hd | hd
      · injection hd with hd
        subst hd
        simp [videoOk]
      · cases hd)
